import Mathlib

/-!
Shallow embedding of the webflow-util sources:

* `src/src/modules/webflow-track.js` — the `WfuTracker` class (`track`,
  `isTracked`, `reset`) over three backing stores (sessionStorage,
  localStorage, cookies);
* `src/dist/webflow-video.js` — `WebflowVideo.processAllDataPosterUrls`;
* `src/src/webflow-membership.ts` — the `Sa5Membership` class
  (`isLoggedIn`, `clearUserInfo`, `readyUserInfo`, `loadUserInfoAsync`,
  `saveUserInfoCache`, `loadUserInfoCache`, `getUserKey`, and the login-form
  submit handler installed by `init`).

JS strings are modelled as lists of characters (`CStr`) where the code does
character-level parsing (the tracker's cookie handling), and as Lean `String`
elsewhere.  Browser storage areas are modelled as ordered association lists;
the cookie jar as an ordered list of name/value pairs together with a model of
the `document.cookie` getter and setter.
-/

/-- JS strings, as character lists, for the tracker (its cookie logic parses
strings character by character with `split`, `trim`, `startsWith`). -/
abbrev CStr := List Char

/-- Prepend a character to the first piece of a split result. -/
def consOntoHead (x : Char) : List (List Char) → List (List Char)
  | [] => [[x]]
  | r :: rs => (x :: r) :: rs

/-- Model of JS `String.prototype.split` with a one-character separator
(used by the tracker as `split(';')` and `split('=')`). -/
def splitOnChar (c : Char) : List Char → List (List Char)
  | [] => [[]]
  | x :: rest =>
    if x = c then [] :: splitOnChar c rest
    else consOntoHead x (splitOnChar c rest)

/-- Model of JS `String.prototype.split` with the two-character separator
"; " (used by `isTracked`/`getItem` on `document.cookie`): scan left to
right for a `';'` immediately followed by `' '`. -/
def splitSemiSpace : List Char → List (List Char)
  | [] => [[]]
  | ';' :: ' ' :: t => [] :: splitSemiSpace t
  | x :: rest => consOntoHead x (splitSemiSpace rest)

/-- Model of JS `String.prototype.trim`; the cookie strings of this program
only ever carry ordinary spaces, so only `' '` is stripped. -/
def trimStr (l : List Char) : List Char :=
  ((l.dropWhile (fun c => c = ' ')).reverse.dropWhile (fun c => c = ' ')).reverse

/-- The browser cookie jar: an ordered list of (name, value) cookies. -/
abbrev CookieJar := List (CStr × CStr)

/-- The `document.cookie` getter: `"n1=v1; n2=v2; ..."`. -/
def cookieString : CookieJar → CStr
  | [] => []
  | [e] => e.1 ++ '=' :: e.2
  | e :: rest => e.1 ++ '=' :: e.2 ++ ';' :: ' ' :: cookieString rest

/-- Insert-or-update of one cookie by name, keeping its position (platform
behaviour of repeated `document.cookie` assignments with the same name). -/
def jarSet : CookieJar → CStr → CStr → CookieJar
  | [], n, v => [(n, v)]
  | e :: rest, n, v => if e.1 = n then (n, v) :: rest else e :: jarSet rest n v

def expiresWord : CStr := "expires".toList

/-- The `document.cookie` setter: parses `"name=value; attribute; ..."` at
the first `'='` and at `';'` boundaries.  The only cookie attribute this
program ever writes is an expiry date in the past (the 1970 epoch), so the
presence of an `expires` attribute is modelled as deletion of the cookie. -/
def cookieAssign (jar : CookieJar) (s : CStr) : CookieJar :=
  let segs := splitOnChar ';' s
  let nv := segs.headD []
  let name := trimStr (nv.takeWhile (fun c => c != '='))
  let value := trimStr ((nv.dropWhile (fun c => c != '=')).drop 1)
  if (segs.drop 1).any (fun a => expiresWord.isPrefixOf (trimStr a)) then
    jar.filter (fun e => !(e.1 == name))
  else
    jarSet jar name value

/-- One Web Storage area (`sessionStorage` or `localStorage`): ordered
key/value pairs with unique keys. -/
abbrev WebStorage := List (CStr × CStr)

/-- Model of `Storage.setItem`: replace the value in place, or append a new entry. -/
def storeSet : WebStorage → CStr → CStr → WebStorage
  | [], k, v => [(k, v)]
  | e :: rest, k, v => if e.1 = k then (k, v) :: rest else e :: storeSet rest k v

/-- Model of `Storage.getItem` (JS `null` modelled as `none`). -/
def storeGet (s : WebStorage) (k : CStr) : Option CStr :=
  (s.find? (fun e => e.1 == k)).map (fun e => e.2)

/-! ## WfuTracker (src/src/modules/webflow-track.js) -/

/-- The tracker's backing-store selector (`config.method`). -/
inductive TrackMethod
  | sessionStorage
  | localStorage
  | cookies
deriving DecidableEq

/-- The `WfuTracker` configuration: backing method and namespacing prefix
(source defaults: `sessionStorage` and `"track"`). -/
structure TrackerConfig where
  method : TrackMethod
  pfx : CStr

/-- The browser storage visible to a `WfuTracker`. -/
structure TrackerStore where
  session : WebStorage
  localS : WebStorage
  cookies : CookieJar
deriving DecidableEq

/-- The method `trackKey(key)`: the namespaced key `prefix + "_" + key`. -/
def trackKey (cfg : TrackerConfig) (key : CStr) : CStr :=
  cfg.pfx ++ '_' :: key

def trueStr : CStr := "true".toList

/-- JS `val || "true"`: an absent or empty (falsy) value defaults to
the literal string `"true"`. -/
def orTrue : Option CStr → CStr
  | some v => if v = [] then trueStr else v
  | none => trueStr

/-- The method `WfuTracker.track(key, val)`. -/
def track (cfg : TrackerConfig) (st : TrackerStore) (key : CStr)
    (val : Option CStr) : TrackerStore :=
  match cfg.method with
  | .sessionStorage =>
      { st with session := storeSet st.session (trackKey cfg key) (orTrue val) }
  | .localStorage =>
      { st with localS := storeSet st.localS (trackKey cfg key) (orTrue val) }
  | .cookies =>
      { st with cookies := cookieAssign st.cookies (trackKey cfg key ++ '=' :: orTrue val) }

/-- The method `WfuTracker.isTracked(key)` (identical to `getItem`): for cookies,
`document.cookie.split('; ').find(row => row.startsWith(trackKey))?.split('=')[1]`. -/
def isTracked (cfg : TrackerConfig) (st : TrackerStore) (key : CStr) : Option CStr :=
  match cfg.method with
  | .sessionStorage => storeGet st.session (trackKey cfg key)
  | .localStorage => storeGet st.localS (trackKey cfg key)
  | .cookies =>
      ((splitSemiSpace (cookieString st.cookies)).find?
        (fun row => (trackKey cfg key).isPrefixOf row)).bind
        (fun row => (splitOnChar '=' row).get? 1)

def epochExpires : CStr := "expires=Thu, 01 Jan 1970 00:00:00 GMT".toList

/-- The cookie branch of `WfuTracker.reset()`: split the cookie string on
`';'`, trim each row, take the part before the first `'='` as the name, and
expire the cookie when the name starts with `prefix + "_"`
(`cookieName.indexOf(prefix_) === 0`). -/
def resetCookies (pfx : CStr) (jar : CookieJar) : CookieJar :=
  (splitOnChar ';' (cookieString jar)).foldl
    (fun j seg =>
      let cookie := trimStr seg
      let cookieName := (splitOnChar '=' cookie).headD []
      if (pfx ++ ['_']).isPrefixOf cookieName then
        cookieAssign j (cookieName ++ '=' :: ';' :: epochExpires)
      else j)
    jar

/-- The method `WfuTracker.reset()`: `sessionStorage.clear()` / `localStorage.clear()`
for the storage methods; prefix-scoped cookie expiry for the cookie method. -/
def reset (cfg : TrackerConfig) (st : TrackerStore) : TrackerStore :=
  match cfg.method with
  | .sessionStorage => { st with session := [] }
  | .localStorage => { st with localS := [] }
  | .cookies => { st with cookies := resetCookies cfg.pfx st.cookies }

/-- Characters that play no separator role in the cookie grammar used by this
program: not `';'`, not `'='`, not `' '`. -/
def plainChar (c : Char) : Bool := !(c == ';') && !(c == '=') && !(c == ' ')

def plainStr (l : CStr) : Bool := l.all plainChar

/-! ## WebflowVideo (src/dist/webflow-video.js) -/

/-- A DOM element, reduced to what `processAllDataPosterUrls` reads: the tag
name and the attribute list. -/
structure DomElement where
  tag : String
  attrs : List (String × String)
deriving DecidableEq

/-- Model of `Element.getAttribute` (JS `null` modelled as `none`). -/
def getAttribute (e : DomElement) (k : String) : Option String :=
  (e.attrs.find? (fun a => a.1 == k)).map (fun a => a.2)

def setAttrList : List (String × String) → String → String → List (String × String)
  | [], k, v => [(k, v)]
  | a :: rest, k, v => if a.1 = k then (k, v) :: rest else a :: setAttrList rest k v

/-- Model of `Element.setAttribute`: replace in place or append. -/
def setAttribute (e : DomElement) (k v : String) : DomElement :=
  { e with attrs := setAttrList e.attrs k v }

/-- The per-element action of `processAllDataPosterUrls`: the selector
`div[wfu-data-poster-url]` matches only `div` elements that carry the source
attribute; each match gets
`setAttribute("data-poster-url", getAttribute("wfu-data-poster-url"))`. -/
def processElement (e : DomElement) : DomElement :=
  if e.tag = "div" then
    match getAttribute e "wfu-data-poster-url" with
    | some v => setAttribute e "data-poster-url" v
    | none => e
  else e

/-- The method `WebflowVideo.processAllDataPosterUrls`, over the document's elements. -/
def processAllDataPosterUrls (doc : List DomElement) : List DomElement :=
  doc.map processElement

/-! ## Sa5Membership (src/src/webflow-membership.ts) -/

/-- Base64 alphabet used by the platform's `btoa`/`atob`. -/
def base64Table : List Char :=
  "ABCDEFGHIJKLMNOPQRSTUVWXYZabcdefghijklmnopqrstuvwxyz0123456789+/".toList

def b64char (n : Nat) : Char := base64Table.getD n 'A'

/-- Encode one group of at most three bytes into four base64 characters. -/
def base64Chunk : List Nat → List Char
  | [b0] => [b64char (b0 / 4), b64char (b0 % 4 * 16), '=', '=']
  | [b0, b1] => [b64char (b0 / 4), b64char (b0 % 4 * 16 + b1 / 16), b64char (b1 % 16 * 4), '=']
  | [b0, b1, b2] =>
      [b64char (b0 / 4), b64char (b0 % 4 * 16 + b1 / 16),
       b64char (b1 % 16 * 4 + b2 / 64), b64char (b2 % 64)]
  | _ => []

def base64Encode : List Nat → List Char
  | [] => []
  | b0 :: b1 :: b2 :: rest => base64Chunk [b0, b1, b2] ++ base64Encode rest
  | bs => base64Chunk bs

/-- The platform's `btoa`.  JS `btoa` rejects code points above 255; this
program only ever feeds it Latin-1 email text, modelled by reducing each code
point mod 256. -/
def btoa (s : String) : String :=
  ⟨base64Encode (s.toList.map (fun c => c.toNat % 256))⟩

def b64value (c : Char) : Nat := base64Table.indexOf c

/-- The platform's `atob` (base64 decode). -/
def base64Decode : List Char → List Nat
  | c0 :: c1 :: c2 :: c3 :: rest =>
      let n0 := b64value c0
      let n1 := b64value c1
      if c2 = '=' then [n0 * 4 + n1 / 16]
      else
        let n2 := b64value c2
        if c3 = '=' then [n0 * 4 + n1 / 16, n1 % 16 * 16 + n2 / 4]
        else
          [n0 * 4 + n1 / 16, n1 % 16 * 16 + n2 / 4, n2 % 4 * 64 + b64value c3]
            ++ base64Decode rest
  | _ => []

def atob (s : String) : String :=
  ⟨(base64Decode s.toList).map Char.ofNat⟩

/-- A custom-field value: the scraper stores strings for the
PlainText/Email/Link/Option/Number field types and booleans for Bool. -/
inductive CustomFieldValue
  | str (s : String)
  | boolean (b : Bool)
deriving DecidableEq

/-- Modelled from the spec: the `user_data_loaded` flag record of `Sa5User`
(`src/src/webflow-membership/user` is not among the sources; §3 of the spec
describes `loadedFlags` as four booleans, one per data layer, false on a
blank profile). -/
structure UserDataLoaded where
  email : Bool := false
  account_info : Bool := false
  custom_fields : Bool := false
  access_groups : Bool := false
deriving DecidableEq

/-- Modelled from the spec: the `Sa5User` profile record
(`src/src/webflow-membership/user` is not among the sources; §3 of the spec
gives optional `email`, `name`, `acceptsCommunications`, a custom-fields
mapping, and the `loadedFlags`; `new Sa5User()` is a blank profile). -/
structure Sa5User where
  email : Option String := none
  name : Option String := none
  accept_communications : Option Bool := none
  data : List (String × CustomFieldValue) := []
  user_data_loaded : UserDataLoaded := {}
deriving DecidableEq

/-- A `localStorage`-style area keyed by Lean strings. -/
abbrev SStorage := List (String × String)

def lsSet : SStorage → String → String → SStorage
  | [], k, v => [(k, v)]
  | e :: rest, k, v => if e.1 = k then (k, v) :: rest else e :: lsSet rest k v

def lsGet (s : SStorage) (k : String) : Option String :=
  (s.find? (fun e => e.1 == k)).map (fun e => e.2)

def lsRemove (s : SStorage) (k : String) : SStorage :=
  s.filter (fun e => !(e.1 == k))

/-- Browser state visible to `Sa5Membership`.  The `wf_loggedin` cookie is
reduced to its truthiness (`loggedIn`); the sessionStorage entry under
`StorageKeys.user` (`"wfuUser"`) holds the profile serialized with
`btoa(JSON.stringify(·))` — a reversible platform encoding (spec §6), so the
entry is modelled as the decoded profile itself (`none` = absent). -/
structure MembershipState where
  loggedIn : Bool
  wfuUser : Option Sa5User
  localEntries : SStorage
deriving DecidableEq

/-- The configuration bits that decide observable behaviour: whether the
data-binder runs after a merge (`config.dataBind`) and whether a
`userInfoUpdatedCallback` is configured. -/
structure MembershipConfig where
  dataBind : Bool
  hasCallback : Bool

/-- Observable side effects of the membership operations: a data-bind pass, a
user-callback invocation (each carrying the profile passed), and the launch of
one of the three asynchronous loads of `loadUserInfoAsync`. -/
inductive MembershipEvent
  | dataBindEv (u : Sa5User)
  | callbackEv (u : Sa5User)
  | fetchLoginInfo
  | fetchAccountInfo
  | fetchAccessGroups
deriving DecidableEq

/-- The method `isLoggedIn()`: `getCookie("wf_loggedin") || false`, i.e. the truthiness
of the login cookie. -/
def isLoggedIn (st : MembershipState) : Bool := st.loggedIn

/-- The guards of `saveUserInfoCache` and `loadUserInfoCache` test
`!this.isLoggedIn` — the method reference, a function object, which is always
truthy — rather than calling `this.isLoggedIn()`. -/
def isLoggedInMethodRef : Bool := true

/-- The method `clearUserInfo()`: `sessionStorage.removeItem(StorageKeys.user)` and
`localStorage.removeItem(StorageKeys.userKey)` (`"wfuUserKey"`). -/
def clearUserInfo (st : MembershipState) : MembershipState :=
  { st with
    wfuUser := none
    localEntries := lsRemove st.localEntries "wfuUserKey" }

/-- The method `loadUserInfoCache()`: early-returns `null` when `!this.isLoggedIn` (the
always-truthy method reference, so never); otherwise decodes the
sessionStorage entry, `null` when absent. -/
def loadUserInfoCache (st : MembershipState) : Option Sa5User :=
  if !isLoggedInMethodRef then none
  else st.wfuUser

/-- The merge step of `saveUserInfoCache` (lines 538-561): per incoming
loaded-flag, copy that layer's fields wholesale — the `account_info` branch
also copies `email` — then OR the four flags. -/
def mergeUserData (userData newUserData : Sa5User) : Sa5User :=
  let u1 :=
    if newUserData.user_data_loaded.email then
      { userData with email := newUserData.email }
    else userData
  let u2 :=
    if newUserData.user_data_loaded.account_info then
      { u1 with
        email := newUserData.email
        name := newUserData.name
        accept_communications := newUserData.accept_communications }
    else u1
  let u3 :=
    if newUserData.user_data_loaded.custom_fields then
      { u2 with data := newUserData.data }
    else u2
  -- access_groups: "Not yet implemented." — no fields are merged.
  { u3 with
    user_data_loaded :=
      { email := userData.user_data_loaded.email || newUserData.user_data_loaded.email
        account_info := userData.user_data_loaded.account_info || newUserData.user_data_loaded.account_info
        custom_fields := userData.user_data_loaded.custom_fields || newUserData.user_data_loaded.custom_fields
        access_groups := userData.user_data_loaded.access_groups || newUserData.user_data_loaded.access_groups } }

/-- The method `saveUserInfoCache(newUserData)`: guard on the always-truthy method
reference `this.isLoggedIn`, read-modify-write merge into the cached profile
(blank when none), persist, then data-bind and notify when configured. -/
def saveUserInfoCache (cfg : MembershipConfig) (st : MembershipState)
    (newUserData : Sa5User) : MembershipState × List MembershipEvent :=
  if !isLoggedInMethodRef then (st, [])
  else
    let userData := (loadUserInfoCache st).getD {}
    let merged := mergeUserData userData newUserData
    ({ st with wfuUser := some merged },
      (if cfg.dataBind then [MembershipEvent.dataBindEv merged] else []) ++
      (if cfg.hasCallback then [MembershipEvent.callbackEv merged] else []))

/-- The state/event part of `loadUserInfoAsync()`: clear when logged out;
otherwise drop the stale sessionStorage entry and launch the three
fire-and-forget loads (login-info, account-info scrape, access-groups). -/
def loadUserInfoAsync (st : MembershipState) : MembershipState × List MembershipEvent :=
  if !(isLoggedIn st) then (clearUserInfo st, [])
  else
    ({ st with wfuUser := none },
      [MembershipEvent.fetchLoginInfo, MembershipEvent.fetchAccountInfo,
       MembershipEvent.fetchAccessGroups])

/-- The method `readyUserInfo()`: clear when logged out; with a cached profile, data-bind
and invoke the configured callback on it; with no cached profile, fall through
to `loadUserInfoAsync()`. -/
def readyUserInfo (cfg : MembershipConfig) (st : MembershipState) :
    MembershipState × List MembershipEvent :=
  if !(isLoggedIn st) then (clearUserInfo st, [])
  else
    match loadUserInfoCache st with
    | some user =>
        (st,
          (if cfg.dataBind then [MembershipEvent.dataBindEv user] else []) ++
          (if cfg.hasCallback then [MembershipEvent.callbackEv user] else []))
    | none => loadUserInfoAsync st

/-- The method `getUserKey()`: read `localStorage[StorageKeys.userKey]` (`"wfuUserKey"`),
return `atob` of it when truthy, `undefined` otherwise. -/
def getUserKey (st : MembershipState) : Option String :=
  match lsGet st.localEntries "wfuUserKey" with
  | some enc => if enc = "" then none else some (atob enc)
  | none => none

/-- The login-form submit handler installed by `init()`: captures the email
input and runs `localStorage.setItem('StorageKeys.userKey', btoa(email))` —
the storage key is the string literal `'StorageKeys.userKey'`, not the value
`StorageKeys.userKey` (`"wfuUserKey"`). -/
def loginSubmitHandler (st : MembershipState) (userEmail : String) : MembershipState :=
  { st with localEntries := lsSet st.localEntries "StorageKeys.userKey" (btoa userEmail) }

/-- One of the four data layers tracked by `user_data_loaded`. -/
inductive DataLayerFlag
  | email
  | account_info
  | custom_fields
  | access_groups
deriving DecidableEq

def getFlag : DataLayerFlag → UserDataLoaded → Bool
  | .email, f => f.email
  | .account_info, f => f.account_info
  | .custom_fields, f => f.custom_fields
  | .access_groups, f => f.access_groups

/-- Whether the given data layer is marked loaded on the persisted cached
profile (false when nothing is cached). -/
def cachedFlag (fl : DataLayerFlag) (st : MembershipState) : Bool :=
  match st.wfuUser with
  | some u => getFlag fl u.user_data_loaded
  | none => false

/-- The state part of one `saveUserInfoCache` merge. -/
def saveStep (cfg : MembershipConfig) (st : MembershipState) (p : Sa5User) :
    MembershipState :=
  (saveUserInfoCache cfg st p).1

/-- A `MembershipEvent` classifier for callback invocations. -/
def isCallbackEv : MembershipEvent → Bool
  | .callbackEv _ => true
  | _ => false

/-- The rows of the `document.cookie` getter string, one per cookie. -/
def rowsOf (jar : CookieJar) : List CStr :=
  jar.map (fun e => e.1 ++ '=' :: e.2)

/-- A well-formed browser cookie jar: names and values free of the separator
characters `';'`, `'='`, `' '` (the browser rejects or encodes these). -/
def wfJar (jar : CookieJar) : Prop :=
  ∀ e ∈ jar, plainStr e.1 = true ∧ plainStr e.2 = true


/-! ## Helper lemmas: string parsing -/

theorem plain_mem {l : CStr} {x : Char} (h : plainStr l = true) (hx : x ∈ l) :
    x ≠ ';' ∧ x ≠ '=' ∧ x ≠ ' ' := by
  have hpc := (List.all_eq_true.mp h) x hx
  simp only [plainChar, Bool.and_eq_true, Bool.not_eq_true', beq_eq_false_iff_ne] at hpc
  exact ⟨hpc.1.1, hpc.1.2, hpc.2⟩

theorem plain_not_mem_semi {l : CStr} (h : plainStr l = true) : ';' ∉ l :=
  fun hm => (plain_mem h hm).1 rfl

theorem plain_not_mem_eq {l : CStr} (h : plainStr l = true) : '=' ∉ l :=
  fun hm => (plain_mem h hm).2.1 rfl

theorem plain_not_mem_space {l : CStr} (h : plainStr l = true) : ' ' ∉ l :=
  fun hm => (plain_mem h hm).2.2 rfl

theorem plainStr_append {l₁ l₂ : CStr} (h₁ : plainStr l₁ = true)
    (h₂ : plainStr l₂ = true) : plainStr (l₁ ++ l₂) = true := by
  simp only [plainStr, List.all_append, Bool.and_eq_true]
  exact ⟨h₁, h₂⟩

theorem consOntoHead_cons (x : Char) (r : List Char) (rs : List (List Char)) :
    consOntoHead x (r :: rs) = (x :: r) :: rs := rfl

theorem splitOnChar_ne_nil (c : Char) (l : List Char) : splitOnChar c l ≠ [] := by
  induction l with
  | nil => simp [splitOnChar]
  | cons x rest ih =>
    simp only [splitOnChar]
    by_cases hx : x = c
    · simp [hx]
    · simp only [hx, if_false]
      cases h : splitOnChar c rest with
      | nil => exact absurd h ih
      | cons r rs => simp [consOntoHead]

theorem splitOnChar_cons_ne {c x : Char} (rest : List Char) (h : x ≠ c) :
    splitOnChar c (x :: rest) = consOntoHead x (splitOnChar c rest) := by
  simp [splitOnChar, h]

theorem splitOnChar_not_mem {c : Char} {l : List Char} (h : c ∉ l) :
    splitOnChar c l = [l] := by
  induction l with
  | nil => rfl
  | cons x rest ih =>
    have hx : x ≠ c := fun hxc => h (hxc ▸ List.mem_cons_self x rest)
    have hrest : c ∉ rest := fun hc => h (List.mem_cons_of_mem x hc)
    rw [splitOnChar_cons_ne rest hx, ih hrest, consOntoHead_cons]

theorem splitOnChar_append {c : Char} {l t : List Char} (h : c ∉ l) :
    splitOnChar c (l ++ c :: t) = l :: splitOnChar c t := by
  induction l with
  | nil => simp [splitOnChar]
  | cons x rest ih =>
    have hx : x ≠ c := fun hxc => h (hxc ▸ List.mem_cons_self x rest)
    have hrest : c ∉ rest := fun hc => h (List.mem_cons_of_mem x hc)
    rw [List.cons_append, splitOnChar_cons_ne _ hx, ih hrest, consOntoHead_cons]

theorem splitSemiSpace_cons_ne (x : Char) (rest : List Char) (h : x ≠ ';') :
    splitSemiSpace (x :: rest) = consOntoHead x (splitSemiSpace rest) := by
  cases rest with
  | nil => simp [splitSemiSpace, h]
  | cons y t => simp [splitSemiSpace, h]

theorem splitSemiSpace_not_mem {l : List Char} (h : ';' ∉ l) :
    splitSemiSpace l = [l] := by
  induction l with
  | nil => rfl
  | cons x rest ih =>
    have hx : x ≠ ';' := fun hxc => h (hxc ▸ List.mem_cons_self x rest)
    have hrest : ';' ∉ rest := fun hc => h (List.mem_cons_of_mem x hc)
    rw [splitSemiSpace_cons_ne x rest hx, ih hrest, consOntoHead_cons]

theorem splitSemiSpace_append {l t : List Char} (h : ';' ∉ l) :
    splitSemiSpace (l ++ ';' :: ' ' :: t) = l :: splitSemiSpace t := by
  induction l with
  | nil => simp [splitSemiSpace]
  | cons x rest ih =>
    have hx : x ≠ ';' := fun hxc => h (hxc ▸ List.mem_cons_self x rest)
    have hrest : ';' ∉ rest := fun hc => h (List.mem_cons_of_mem x hc)
    rw [List.cons_append, splitSemiSpace_cons_ne x _ hx, ih hrest, consOntoHead_cons]

theorem dropWhile_space_of_not_mem {l : CStr} (h : ' ' ∉ l) :
    l.dropWhile (fun c => c = ' ') = l := by
  cases l with
  | nil => rfl
  | cons x t =>
    have hx : x ≠ ' ' := fun hxs => h (hxs ▸ List.mem_cons_self x t)
    simp [List.dropWhile, hx]

theorem trimStr_of_not_mem {l : CStr} (h : ' ' ∉ l) : trimStr l = l := by
  have hrev : ' ' ∉ l.reverse := fun hm => h (List.mem_reverse.mp hm)
  simp only [trimStr, dropWhile_space_of_not_mem h, dropWhile_space_of_not_mem hrev,
    List.reverse_reverse]

theorem trimStr_cons_space (l : CStr) : trimStr (' ' :: l) = trimStr l := by
  simp [trimStr, List.dropWhile]

theorem takeWhile_ne_eq_append {n v : CStr} (h : '=' ∉ n) :
    ((n ++ '=' :: v).takeWhile (fun c => c != '=')) = n := by
  induction n with
  | nil => simp [List.takeWhile]
  | cons x t ih =>
    have hx : x ≠ '=' := fun hxe => h (hxe ▸ List.mem_cons_self x t)
    have ht : '=' ∉ t := fun hm => h (List.mem_cons_of_mem x hm)
    rw [List.cons_append, List.takeWhile_cons_of_pos, ih ht]
    simp [hx]

theorem dropWhile_ne_eq_append {n v : CStr} (h : '=' ∉ n) :
    ((n ++ '=' :: v).dropWhile (fun c => c != '=')) = '=' :: v := by
  induction n with
  | nil => simp [List.dropWhile]
  | cons x t ih =>
    have hx : x ≠ '=' := fun hxe => h (hxe ▸ List.mem_cons_self x t)
    have ht : '=' ∉ t := fun hm => h (List.mem_cons_of_mem x hm)
    rw [List.cons_append, List.dropWhile_cons_of_pos, ih ht]
    simp [hx]

theorem isPrefixOf_self_append (p t : CStr) : p.isPrefixOf (p ++ t) = true := by
  rw [List.isPrefixOf_iff_prefix]
  exact List.prefix_append p t

theorem not_isPrefixOf_name_row {p : CStr} (v : CStr) (hp : '=' ∉ p) :
    ∀ {n : CStr}, p.isPrefixOf n = false → p.isPrefixOf (n ++ '=' :: v) = false := by
  induction p with
  | nil => intro n h; simp [List.isPrefixOf] at h
  | cons c p' ih =>
    have hc : c ≠ '=' := fun hce => hp (hce ▸ List.mem_cons_self c p')
    have hp' : '=' ∉ p' := fun hm => hp (List.mem_cons_of_mem c hm)
    intro n h
    cases n with
    | nil =>
      simp only [List.nil_append, List.isPrefixOf, Bool.and_eq_false_iff]
      left
      simp [hc]
    | cons x n' =>
      simp only [List.isPrefixOf, Bool.and_eq_false_iff] at h
      rcases h with h | h
      · simp [List.isPrefixOf, h]
      · have := ih hp' h
        simp only [List.cons_append, List.isPrefixOf, List.append_eq, this, Bool.and_false]

theorem find?_skip {α : Type} (p : α → Bool) (l₁ l₂ : List α)
    (h : ∀ x ∈ l₁, p x = false) : (l₁ ++ l₂).find? p = l₂.find? p := by
  rw [List.find?_append, List.find?_eq_none.mpr ?_]
  · rfl
  · intro x hx
    simp [h x hx]

theorem storeGet_storeSet (s : WebStorage) (k v : CStr) :
    storeGet (storeSet s k v) k = some v := by
  induction s with
  | nil => simp [storeSet, storeGet, List.find?]
  | cons e rest ih =>
    by_cases he : e.1 = k
    · simp [storeSet, he, storeGet, List.find?]
    · simp only [storeSet, he, if_false]
      simp only [storeGet, List.find?] at ih ⊢
      have : (e.1 == k) = false := by simp [he]
      rw [this]
      exact ih

theorem jarSet_of_not_mem {jar : CookieJar} {n : CStr} (v : CStr)
    (h : ∀ e ∈ jar, e.1 ≠ n) : jarSet jar n v = jar ++ [(n, v)] := by
  induction jar with
  | nil => rfl
  | cons e rest ih =>
    have he : e.1 ≠ n := h e (List.mem_cons_self e rest)
    have hrest : ∀ x ∈ rest, x.1 ≠ n := fun x hx => h x (List.mem_cons_of_mem e hx)
    simp only [jarSet, he, if_false, List.cons_append, ih hrest]

theorem lsGet_lsSet_self (s : SStorage) (k v : String) :
    lsGet (lsSet s k v) k = some v := by
  induction s with
  | nil => simp [lsSet, lsGet, List.find?]
  | cons e rest ih =>
    by_cases he : e.1 = k
    · simp [lsSet, he, lsGet, List.find?]
    · simp only [lsSet, he, if_false]
      simp only [lsGet, List.find?] at ih ⊢
      have : (e.1 == k) = false := by simp [he]
      rw [this]
      exact ih

theorem lsGet_lsSet_ne (s : SStorage) {k k' : String} (v : String) (h : k' ≠ k) :
    lsGet (lsSet s k v) k' = lsGet s k' := by
  induction s with
  | nil =>
    simp only [lsSet, lsGet, List.find?, show (k == k') = false by simp [Ne.symm h]]
  | cons e rest ih =>
    by_cases he : e.1 = k
    · simp only [lsSet, he, if_true]
      simp only [lsGet, List.find?, show (k == k') = false by simp [Ne.symm h],
        show (e.1 == k') = false by simp [he, Ne.symm h]]
    · simp only [lsSet, he, if_false]
      simp only [lsGet, List.find?] at ih ⊢
      cases hek : (e.1 == k') with
      | true => rfl
      | false => exact ih

theorem lsGet_lsRemove_self (s : SStorage) (k : String) :
    lsGet (lsRemove s k) k = none := by
  induction s with
  | nil => rfl
  | cons e rest ih =>
    by_cases he : e.1 = k
    · simpa [lsRemove, he] using ih
    · simp only [lsRemove, List.filter] at ih ⊢
      simp only [show (e.1 == k) = false by simp [he], Bool.not_false]
      simp only [lsGet, List.find?, show (e.1 == k) = false by simp [he]] at ih ⊢
      exact ih

theorem lsGet_lsRemove_ne (s : SStorage) {k k' : String} (h : k' ≠ k) :
    lsGet (lsRemove s k) k' = lsGet s k' := by
  induction s with
  | nil => rfl
  | cons e rest ih =>
    by_cases he : e.1 = k
    · have : (e.1 == k') = false := by simp [he, Ne.symm h]
      simp only [lsRemove, List.filter, show (e.1 == k) = false → False from fun hc => by simp [he] at hc]
      simp only [show (e.1 == k) = true by simp [he], Bool.not_true]
      simp only [lsRemove] at ih
      simp only [lsGet, List.find?, this] at ih ⊢
      exact ih
    · simp only [lsRemove, List.filter, show (e.1 == k) = false by simp [he], Bool.not_false] at ih ⊢
      simp only [lsGet, List.find?] at ih ⊢
      cases hek : (e.1 == k') with
      | true => rfl
      | false => exact ih

theorem row_not_mem_semi {n v : CStr} (hn : plainStr n = true)
    (hv : plainStr v = true) : ';' ∉ n ++ '=' :: v := by
  intro hm
  rcases List.mem_append.mp hm with h | h
  · exact plain_not_mem_semi hn h
  · rcases List.mem_cons.mp h with h | h
    · exact absurd h (by decide)
    · exact plain_not_mem_semi hv h

theorem row_semi_free {n v : CStr} (hn : ';' ∉ n) (hv : ';' ∉ v) :
    ';' ∉ n ++ '=' :: v := by
  intro hm
  rcases List.mem_append.mp hm with h | h
  · exact hn h
  · rcases List.mem_cons.mp h with h | h
    · exact absurd h (by decide)
    · exact hv h

theorem row_not_mem_space {n v : CStr} (hn : plainStr n = true)
    (hv : plainStr v = true) : ' ' ∉ n ++ '=' :: v := by
  intro hm
  rcases List.mem_append.mp hm with h | h
  · exact plain_not_mem_space hn h
  · rcases List.mem_cons.mp h with h | h
    · exact absurd h (by decide)
    · exact plain_not_mem_space hv h

theorem cookieString_cons_of_ne_nil (e : CStr × CStr) {rest : CookieJar}
    (h : rest ≠ []) :
    cookieString (e :: rest) =
      (e.1 ++ '=' :: e.2) ++ ';' :: ' ' :: cookieString rest := by
  cases rest with
  | nil => exact absurd rfl h
  | cons f t => simp [cookieString, List.append_assoc]

theorem splitSemiSpace_cookieString {jar : CookieJar}
    (hsemi : ∀ e ∈ jar, ';' ∉ e.1 ∧ ';' ∉ e.2)
    (hne : jar ≠ []) : splitSemiSpace (cookieString jar) = rowsOf jar := by
  induction jar with
  | nil => exact absurd rfl hne
  | cons e rest ih =>
    have he := hsemi e (List.mem_cons_self e rest)
    have hrow : ';' ∉ e.1 ++ '=' :: e.2 := row_semi_free he.1 he.2
    cases hr : rest with
    | nil =>
      simp only [cookieString, rowsOf, List.map]
      exact splitSemiSpace_not_mem hrow
    | cons f t =>
      have hrest : ∀ x ∈ rest, ';' ∉ x.1 ∧ ';' ∉ x.2 :=
        fun x hx => hsemi x (List.mem_cons_of_mem e hx)
      have hrne : rest ≠ [] := by simp [hr]
      rw [← hr, cookieString_cons_of_ne_nil e hrne,
        splitSemiSpace_append hrow, ih hrest hrne]
      rfl

theorem map_trimStr_splitOnChar_space (t : List Char) :
    (splitOnChar ';' (' ' :: t)).map trimStr = (splitOnChar ';' t).map trimStr := by
  rw [splitOnChar_cons_ne t (by decide)]
  cases hs : splitOnChar ';' t with
  | nil => exact absurd hs (splitOnChar_ne_nil ';' t)
  | cons r rs =>
    rw [consOntoHead_cons]
    simp only [List.map, trimStr_cons_space]

theorem map_trimStr_splitOnChar_cookieString {jar : CookieJar} (hwf : wfJar jar)
    (hne : jar ≠ []) :
    (splitOnChar ';' (cookieString jar)).map trimStr = rowsOf jar := by
  induction jar with
  | nil => exact absurd rfl hne
  | cons e rest ih =>
    have he := hwf e (List.mem_cons_self e rest)
    have hrow : ';' ∉ e.1 ++ '=' :: e.2 := row_not_mem_semi he.1 he.2
    have hrowsp : ' ' ∉ e.1 ++ '=' :: e.2 := row_not_mem_space he.1 he.2
    cases hr : rest with
    | nil =>
      simp only [cookieString, rowsOf, List.map]
      rw [splitOnChar_not_mem hrow]
      simp only [List.map, trimStr_of_not_mem hrowsp]
    | cons f t =>
      have hrest : wfJar rest := fun x hx => hwf x (List.mem_cons_of_mem e hx)
      have hrne : rest ≠ [] := by simp [hr]
      rw [← hr, cookieString_cons_of_ne_nil e hrne, splitOnChar_append hrow]
      simp only [List.map, trimStr_of_not_mem hrowsp]
      rw [map_trimStr_splitOnChar_space, ih hrest hrne]
      rfl

theorem foldl_expire_filter (P : CStr → Bool) :
    ∀ (src : List (CStr × CStr)) (j : CookieJar),
      src.foldl (fun j e => if P e.1 then j.filter (fun x => !(x.1 == e.1)) else j) j
        = j.filter (fun x => !(P x.1 && src.any (fun e => e.1 == x.1))) := by
  intro src
  induction src with
  | nil =>
    intro j
    simp only [List.foldl_nil, List.any_nil, Bool.and_false, Bool.not_false, List.filter_true]
  | cons e src ih =>
    intro j
    rw [List.foldl_cons, ih]
    by_cases hP : P e.1 = true
    · simp only [hP, if_true, List.filter_filter]
      apply List.filter_congr
      intro x _
      by_cases hx : x.1 = e.1
      · have hbe : (e.1 == x.1) = true := by simp [hx]
        have hbx : (x.1 == e.1) = true := by simp [hx]
        have hpx : P x.1 = true := hx ▸ hP
        simp [hbe, hbx, hpx]
      · have hbe : (e.1 == x.1) = false := by simp [Ne.symm hx]
        have hbx : (x.1 == e.1) = false := by simp [hx]
        simp [hbe, hbx]
    · simp only [hP, if_false]
      apply List.filter_congr
      intro x _
      by_cases hx : x.1 = e.1
      · have hbe : (e.1 == x.1) = true := by simp [hx]
        have hpx : P x.1 = false := by rw [hx]; exact Bool.eq_false_iff.mpr hP
        simp [hbe, hpx]
      · have hbe : (e.1 == x.1) = false := by simp [Ne.symm hx]
        simp [hbe]

theorem cookieAssign_expire (j : CookieJar) {n : CStr} (hn : plainStr n = true) :
    cookieAssign j (n ++ '=' :: ';' :: epochExpires) =
      j.filter (fun e => !(e.1 == n)) := by
  have hsplit : splitOnChar ';' (n ++ '=' :: ';' :: epochExpires) =
      (n ++ ['=']) :: splitOnChar ';' epochExpires := by
    have : n ++ '=' :: ';' :: epochExpires = (n ++ ['=']) ++ ';' :: epochExpires := by
      simp [List.append_assoc]
    rw [this]
    apply splitOnChar_append
    intro hm
    rcases List.mem_append.mp hm with h | h
    · exact plain_not_mem_semi hn h
    · simp at h
  have hep : splitOnChar ';' epochExpires = [epochExpires] := by decide
  have hname : trimStr ((n ++ ['=']).takeWhile (fun c => c != '=')) = n := by
    have : (n ++ ['=']).takeWhile (fun c => c != '=') = n := by
      have := takeWhile_ne_eq_append (v := ([] : CStr)) (plain_not_mem_eq hn)
      simpa using this
    rw [this]
    exact trimStr_of_not_mem (plain_not_mem_space hn)
  have hexp : expiresWord.isPrefixOf (trimStr epochExpires) = true := by decide
  simp only [cookieAssign, hsplit, hep, List.headD_cons, List.drop_one, List.tail_cons,
    List.any_cons, List.any_nil, hexp, Bool.or_false, hname, if_true]

theorem isPrefixOf_append_singleton_nil (p : CStr) (c : Char) :
    ((p ++ [c]).isPrefixOf ([] : CStr)) = false := by
  cases p <;> simp [List.isPrefixOf]

theorem headD_splitOnChar_row {n v : CStr} (h : '=' ∉ n) :
    ((splitOnChar '=' (n ++ '=' :: v)).headD []) = n := by
  rw [splitOnChar_append h, List.headD_cons]

theorem resetCookies_eq_filter (pfx : CStr) {jar : CookieJar} (hwf : wfJar jar) :
    resetCookies pfx jar = jar.filter (fun e => !((pfx ++ ['_']).isPrefixOf e.1)) := by
  cases hj : jar with
  | nil =>
    have h0 : ((pfx ++ ['_']).isPrefixOf ([] : CStr)) = false :=
      isPrefixOf_append_singleton_nil pfx '_'
    simp [resetCookies, cookieString, splitOnChar, trimStr, h0]
  | cons a rest =>
    rw [← hj]
    have hne : jar ≠ [] := by simp [hj]
    have h1 : resetCookies pfx jar =
        ((splitOnChar ';' (cookieString jar)).map trimStr).foldl
          (fun j cookie =>
            if (pfx ++ ['_']).isPrefixOf ((splitOnChar '=' cookie).headD []) then
              cookieAssign j (((splitOnChar '=' cookie).headD []) ++ '=' :: ';' :: epochExpires)
            else j) jar := by
      rw [List.foldl_map]
      rfl
    rw [h1, map_trimStr_splitOnChar_cookieString hwf hne]
    have h2 : rowsOf jar = jar.map (fun e => e.1 ++ '=' :: e.2) := rfl
    rw [h2, List.foldl_map]
    have h3 : ∀ e ∈ jar, ∀ j : CookieJar,
        (if (pfx ++ ['_']).isPrefixOf ((splitOnChar '=' (e.1 ++ '=' :: e.2)).headD []) then
          cookieAssign j (((splitOnChar '=' (e.1 ++ '=' :: e.2)).headD []) ++ '=' :: ';' :: epochExpires)
        else j) =
        (if (pfx ++ ['_']).isPrefixOf e.1 then j.filter (fun x => !(x.1 == e.1)) else j) := by
      intro e he j
      have hpe := hwf e he
      rw [headD_splitOnChar_row (plain_not_mem_eq hpe.1)]
      by_cases hP : ((pfx ++ ['_']).isPrefixOf e.1) = true
      · rw [if_pos hP, if_pos hP, cookieAssign_expire j hpe.1]
      · rw [if_neg hP, if_neg hP]
    rw [List.foldl_ext _ _ jar (fun j e he => h3 e he j)]
    rw [foldl_expire_filter]
    apply List.filter_congr
    intro x hx
    have hany : (jar.any (fun e => e.1 == x.1)) = true :=
      List.any_eq_true.mpr ⟨x, hx, by simp⟩
    rw [hany, Bool.and_true]

theorem isPrefixOf_self (p : CStr) : p.isPrefixOf p = true := by
  rw [List.isPrefixOf_iff_prefix]

theorem cookieAssign_fresh {jar : CookieJar} {tk v : CStr}
    (htk : plainStr tk = true) (hv : plainStr v = true)
    (hfresh : ∀ e ∈ jar, e.1 ≠ tk) :
    cookieAssign jar (tk ++ '=' :: v) = jar ++ [(tk, v)] := by
  have hsplit : splitOnChar ';' (tk ++ '=' :: v) = [tk ++ '=' :: v] :=
    splitOnChar_not_mem (row_not_mem_semi htk hv)
  have hname : trimStr ((tk ++ '=' :: v).takeWhile (fun c => c != '=')) = tk := by
    rw [takeWhile_ne_eq_append (plain_not_mem_eq htk)]
    exact trimStr_of_not_mem (plain_not_mem_space htk)
  have hvalue : trimStr (((tk ++ '=' :: v).dropWhile (fun c => c != '=')).tail) = v := by
    rw [dropWhile_ne_eq_append (plain_not_mem_eq htk), List.tail_cons]
    exact trimStr_of_not_mem (plain_not_mem_space hv)
  simp only [cookieAssign, hsplit, List.headD_cons, List.drop_one, List.tail_cons,
    List.any_nil, if_false, hname, hvalue, Bool.false_eq_true]
  exact jarSet_of_not_mem v hfresh

theorem isTracked_cookie_appended {jar : CookieJar} {tk v : CStr}
    (hjar : ∀ e ∈ jar, plainStr e.1 = true ∧ ';' ∉ e.2)
    (htk : plainStr tk = true) (hv : plainStr v = true)
    (hfresh : ∀ e ∈ jar, tk.isPrefixOf e.1 = false) :
    ((splitSemiSpace (cookieString (jar ++ [(tk, v)]))).find?
        (fun row => tk.isPrefixOf row)).bind
      (fun row => (splitOnChar '=' row).get? 1) = some v := by
  have hsemi' : ∀ e ∈ jar ++ [(tk, v)], ';' ∉ e.1 ∧ ';' ∉ e.2 := by
    intro e he
    rcases List.mem_append.mp he with h | h
    · exact ⟨plain_not_mem_semi (hjar e h).1, (hjar e h).2⟩
    · rcases List.mem_singleton.mp h with rfl
      exact ⟨plain_not_mem_semi htk, plain_not_mem_semi hv⟩
  have hne : jar ++ [(tk, v)] ≠ [] := by simp
  rw [splitSemiSpace_cookieString hsemi' hne]
  have hrows : rowsOf (jar ++ [(tk, v)]) = rowsOf jar ++ [tk ++ '=' :: v] := by
    simp [rowsOf]
  rw [hrows, find?_skip _ _ _ ?_]
  · have hp : tk.isPrefixOf (tk ++ '=' :: v) = true := isPrefixOf_self_append tk _
    rw [List.find?_cons_of_pos _ hp, Option.some_bind]
    rw [splitOnChar_append (plain_not_mem_eq htk),
      splitOnChar_not_mem (plain_not_mem_eq hv)]
    rfl
  · intro row hrow
    rcases List.mem_map.mp hrow with ⟨e, he, rfl⟩
    exact not_isPrefixOf_name_row e.2 (plain_not_mem_eq htk) (hfresh e he)

theorem getAttribute_setAttribute (e : DomElement) (k v : String) :
    getAttribute (setAttribute e k v) k = some v := by
  show (List.find? (fun a => a.1 == k) (setAttrList e.attrs k v)).map (fun a => a.2) = some v
  induction e.attrs with
  | nil => simp [setAttrList, List.find?]
  | cons a rest ih =>
    by_cases ha : a.1 = k
    · simp [setAttrList, ha, List.find?]
    · simp only [setAttrList, ha, if_false]
      rw [List.find?_cons_of_neg _ (by simp [ha])]
      exact ih

theorem mergeUserData_flags (u p : Sa5User) :
    (mergeUserData u p).user_data_loaded =
      { email := u.user_data_loaded.email || p.user_data_loaded.email
        account_info := u.user_data_loaded.account_info || p.user_data_loaded.account_info
        custom_fields := u.user_data_loaded.custom_fields || p.user_data_loaded.custom_fields
        access_groups := u.user_data_loaded.access_groups || p.user_data_loaded.access_groups } := rfl

theorem cachedFlag_saveStep (cfg : MembershipConfig) (fl : DataLayerFlag)
    (st : MembershipState) (p : Sa5User) :
    cachedFlag fl (saveStep cfg st p) =
      (cachedFlag fl st || getFlag fl p.user_data_loaded) := by
  have hwu : (saveStep cfg st p).wfuUser =
      some (mergeUserData ((loadUserInfoCache st).getD {}) p) := rfl
  have hl : loadUserInfoCache st = st.wfuUser := rfl
  rw [cachedFlag, hwu, hl]
  dsimp only
  rw [mergeUserData_flags]
  cases hst : st.wfuUser with
  | none => cases fl <;> simp [cachedFlag, hst, getFlag]
  | some u => cases fl <;> simp [cachedFlag, hst, getFlag]

/-! ## Claims -/

/-- C1: merging a partial profile whose loaded flags are exactly
`{email := true}` via `saveUserInfoCache` into a cached profile whose
`account_info` flag is true persists a merged profile in which both the
`email` and `account_info` flags are true, the `email` field comes from the
partial, and the `name` and `accept_communications` fields of the cached
profile are preserved. -/
theorem saveUserInfoCache_email_into_account_info (cfg : MembershipConfig)
    (st : MembershipState) (c p : Sa5User)
    (hcache : st.wfuUser = some c)
    (hacct : c.user_data_loaded.account_info = true)
    (hflags : p.user_data_loaded =
      { email := true, account_info := false, custom_fields := false,
        access_groups := false }) :
    (saveUserInfoCache cfg st p).1.wfuUser = some (mergeUserData c p) ∧
    (mergeUserData c p).user_data_loaded.email = true ∧
    (mergeUserData c p).user_data_loaded.account_info = true ∧
    (mergeUserData c p).email = p.email ∧
    (mergeUserData c p).name = c.name ∧
    (mergeUserData c p).accept_communications = c.accept_communications := by
  have hload : loadUserInfoCache st = some c := by
    rw [show loadUserInfoCache st = st.wfuUser from rfl, hcache]
  refine ⟨?_, ?_, ?_, ?_, ?_, ?_⟩
  · have hwu : (saveUserInfoCache cfg st p).1.wfuUser =
        some (mergeUserData ((loadUserInfoCache st).getD {}) p) := rfl
    rw [hwu, hload, Option.getD_some]
  · rw [mergeUserData_flags]
    simp [hflags]
  · rw [mergeUserData_flags]
    simp [hflags, hacct]
  · simp [mergeUserData, hflags]
  · simp [mergeUserData, hflags]
  · simp [mergeUserData, hflags]

/-- C1 witness: the merge at a concrete cached profile and email-only
partial. -/
theorem saveUserInfoCache_email_into_account_info_witness :
    (saveUserInfoCache ⟨true, true⟩
        ⟨true, some { email := some "old@example.com", name := some "Old Name",
                      accept_communications := some true,
                      user_data_loaded := { account_info := true } }, []⟩
        { email := some "new@example.com",
          user_data_loaded := { email := true } }).1.wfuUser =
      some (mergeUserData
        { email := some "old@example.com", name := some "Old Name",
          accept_communications := some true,
          user_data_loaded := { account_info := true } }
        { email := some "new@example.com",
          user_data_loaded := { email := true } }) ∧
    (mergeUserData
        { email := some "old@example.com", name := some "Old Name",
          accept_communications := some true,
          user_data_loaded := { account_info := true } }
        { email := some "new@example.com",
          user_data_loaded := { email := true } }).user_data_loaded.email = true ∧
    (mergeUserData
        { email := some "old@example.com", name := some "Old Name",
          accept_communications := some true,
          user_data_loaded := { account_info := true } }
        { email := some "new@example.com",
          user_data_loaded := { email := true } }).user_data_loaded.account_info = true ∧
    (mergeUserData
        { email := some "old@example.com", name := some "Old Name",
          accept_communications := some true,
          user_data_loaded := { account_info := true } }
        { email := some "new@example.com",
          user_data_loaded := { email := true } }).email =
      ({ email := some "new@example.com",
         user_data_loaded := { email := true } } : Sa5User).email ∧
    (mergeUserData
        { email := some "old@example.com", name := some "Old Name",
          accept_communications := some true,
          user_data_loaded := { account_info := true } }
        { email := some "new@example.com",
          user_data_loaded := { email := true } }).name =
      ({ email := some "old@example.com", name := some "Old Name",
         accept_communications := some true,
         user_data_loaded := { account_info := true } } : Sa5User).name ∧
    (mergeUserData
        { email := some "old@example.com", name := some "Old Name",
          accept_communications := some true,
          user_data_loaded := { account_info := true } }
        { email := some "new@example.com",
          user_data_loaded := { email := true } }).accept_communications =
      ({ email := some "old@example.com", name := some "Old Name",
         accept_communications := some true,
         user_data_loaded := { account_info := true } } : Sa5User).accept_communications :=
  saveUserInfoCache_email_into_account_info _ _ _ _ rfl rfl rfl

/-- C2: across any sequence of `saveUserInfoCache` merges, each of the four
loaded flags on the persisted cached profile is monotonic — once true after
some merge, no later merge resets it (the flags are combined with `||`). -/
theorem cachedFlag_monotonic (cfg : MembershipConfig) (fl : DataLayerFlag)
    (st : MembershipState) (ps : List Sa5User)
    (h : cachedFlag fl st = true) :
    cachedFlag fl (ps.foldl (saveStep cfg) st) = true := by
  induction ps generalizing st with
  | nil => exact h
  | cons p ps ih =>
    rw [List.foldl_cons]
    exact ih _ (by rw [cachedFlag_saveStep, h, Bool.true_or])

/-- C2 witness: a concretely cached `email` flag survives two further
merges. -/
theorem cachedFlag_monotonic_witness :
    cachedFlag DataLayerFlag.email
      (List.foldl (saveStep ⟨true, true⟩)
        ⟨true, some { email := some "a@b.c",
                      user_data_loaded := { email := true } }, []⟩
        [{ name := some "N", user_data_loaded := { account_info := true } },
         { data := [("f1", CustomFieldValue.str "v")],
           user_data_loaded := { custom_fields := true } }]) = true :=
  cachedFlag_monotonic _ _ _ _ rfl

/-- C3 counterexample: the merge is not commutative for an email-only partial
versus an account-info-only partial carrying a different email, because the
`account_info` branch of `saveUserInfoCache` also overwrites the `email`
field — the two orders persist different profiles. -/
theorem saveUserInfoCache_not_commutative :
    (saveStep ⟨false, false⟩
        (saveStep ⟨false, false⟩ ⟨true, none, []⟩
          { email := some "a@x.com", user_data_loaded := { email := true } })
        { email := some "b@x.com", name := some "N",
          accept_communications := some true,
          user_data_loaded := { account_info := true } }).wfuUser ≠
    (saveStep ⟨false, false⟩
        (saveStep ⟨false, false⟩ ⟨true, none, []⟩
          { email := some "b@x.com", name := some "N",
            accept_communications := some true,
            user_data_loaded := { account_info := true } })
        { email := some "a@x.com", user_data_loaded := { email := true } }).wfuUser := by
  decide

/-- C3 amended: the merge is commutative per flag except that the
`account_info` branch also writes the `email` field; for an email-only
partial and an account-info-only partial the two orders agree exactly when
the partials carry the same email. -/
theorem saveUserInfoCache_commutes_on_same_email (cfg : MembershipConfig)
    (st : MembershipState) (p1 p2 : Sa5User)
    (h1 : p1.user_data_loaded =
      { email := true, account_info := false, custom_fields := false,
        access_groups := false })
    (h2 : p2.user_data_loaded =
      { email := false, account_info := true, custom_fields := false,
        access_groups := false })
    (he : p1.email = p2.email) :
    (saveStep cfg (saveStep cfg st p1) p2).wfuUser =
      (saveStep cfg (saveStep cfg st p2) p1).wfuUser := by
  have hstep : ∀ (s : MembershipState) (q : Sa5User),
      (saveStep cfg s q).wfuUser = some (mergeUserData (s.wfuUser.getD {}) q) :=
    fun s q => rfl
  rw [hstep, hstep, hstep, hstep, Option.getD_some, Option.getD_some]
  simp only [mergeUserData, h1, h2, he]
  simp

/-- C3 amended witness: with equal emails the two merge orders agree at a
concrete state. -/
theorem saveUserInfoCache_commutes_on_same_email_witness :
    (saveStep ⟨true, true⟩
        (saveStep ⟨true, true⟩ ⟨true, none, []⟩
          { email := some "same@x.com", user_data_loaded := { email := true } })
        { email := some "same@x.com", name := some "N",
          accept_communications := some false,
          user_data_loaded := { account_info := true } }).wfuUser =
      (saveStep ⟨true, true⟩
        (saveStep ⟨true, true⟩ ⟨true, none, []⟩
          { email := some "same@x.com", name := some "N",
            accept_communications := some false,
            user_data_loaded := { account_info := true } })
        { email := some "same@x.com", user_data_loaded := { email := true } }).wfuUser :=
  saveUserInfoCache_commutes_on_same_email _ _ _ _ rfl rfl rfl

/-- C4: the logged-out guard of `saveUserInfoCache` tests the method
reference `this.isLoggedIn` (always truthy) instead of calling it; at a
concrete logged-out state (`wf_loggedin` cookie absent) the call still
merges and persists the incoming partial profile instead of returning
`null` without caching. -/
theorem saveUserInfoCache_guard_never_blocks :
    isLoggedIn ⟨false, none, []⟩ = false ∧
    (saveUserInfoCache ⟨false, false⟩ ⟨false, none, []⟩
        { email := some "alice@example.com",
          user_data_loaded := { email := true } }).1.wfuUser =
      some { email := some "alice@example.com",
             user_data_loaded := { email := true } } :=
  ⟨rfl, rfl⟩

/-- C5: when `isLoggedIn()` is false, `readyUserInfo()` clears both the
persisted profile (sessionStorage `"wfuUser"`) and the identity key
(localStorage `"wfuUserKey"`), whatever the prior state, and performs no
data-bind, callback or fetch. -/
theorem readyUserInfo_logged_out_clears (cfg : MembershipConfig)
    (st : MembershipState) (h : isLoggedIn st = false) :
    (readyUserInfo cfg st).1.wfuUser = none ∧
    lsGet (readyUserInfo cfg st).1.localEntries "wfuUserKey" = none ∧
    (readyUserInfo cfg st).2 = [] := by
  have hr : readyUserInfo cfg st = (clearUserInfo st, []) := by
    simp [readyUserInfo, h]
  rw [hr]
  exact ⟨rfl, lsGet_lsRemove_self _ _, rfl⟩

/-- C5 witness: a logged-out `readyUserInfo` at a state that previously had
both entries populated. -/
theorem readyUserInfo_logged_out_clears_witness :
    (readyUserInfo ⟨true, true⟩
        ⟨false, some { email := some "x@y.z", user_data_loaded := { email := true } },
         [("wfuUserKey", "eA=="), ("unrelated", "kept")]⟩).1.wfuUser = none ∧
    lsGet (readyUserInfo ⟨true, true⟩
        ⟨false, some { email := some "x@y.z", user_data_loaded := { email := true } },
         [("wfuUserKey", "eA=="), ("unrelated", "kept")]⟩).1.localEntries "wfuUserKey" = none ∧
    (readyUserInfo ⟨true, true⟩
        ⟨false, some { email := some "x@y.z", user_data_loaded := { email := true } },
         [("wfuUserKey", "eA=="), ("unrelated", "kept")]⟩).2 = [] :=
  readyUserInfo_logged_out_clears _ _ rfl

/-- C6: with a cached profile present and `isLoggedIn()` true, one call to
`readyUserInfo()` invokes the configured update callback exactly once, with
the cached profile, and launches neither `loadUserInfoAsync` load — in
particular not the account-scrape fetch. -/
theorem readyUserInfo_cached_callback_once (cfg : MembershipConfig)
    (st : MembershipState) (u : Sa5User)
    (hli : isLoggedIn st = true) (hc : st.wfuUser = some u)
    (hcb : cfg.hasCallback = true) :
    (readyUserInfo cfg st).2.filter isCallbackEv = [MembershipEvent.callbackEv u] ∧
    MembershipEvent.fetchLoginInfo ∉ (readyUserInfo cfg st).2 ∧
    MembershipEvent.fetchAccountInfo ∉ (readyUserInfo cfg st).2 ∧
    MembershipEvent.fetchAccessGroups ∉ (readyUserInfo cfg st).2 := by
  have hload : loadUserInfoCache st = some u := by
    rw [show loadUserInfoCache st = st.wfuUser from rfl, hc]
  have hr : readyUserInfo cfg st =
      (st, (if cfg.dataBind then [MembershipEvent.dataBindEv u] else []) ++
        [MembershipEvent.callbackEv u]) := by
    simp [readyUserInfo, hli, hload, hcb]
  rw [hr]
  by_cases hdb : cfg.dataBind = true
  · simp [hdb, isCallbackEv, List.filter]
  · simp [hdb, isCallbackEv, List.filter]

/-- C6 witness: a concrete cached profile triggers exactly one callback and
no fetch. -/
theorem readyUserInfo_cached_callback_once_witness :
    (readyUserInfo ⟨true, true⟩
        ⟨true, some { email := some "c@d.e", user_data_loaded := { email := true } },
         []⟩).2.filter isCallbackEv =
      [MembershipEvent.callbackEv
        { email := some "c@d.e", user_data_loaded := { email := true } }] ∧
    MembershipEvent.fetchLoginInfo ∉ (readyUserInfo ⟨true, true⟩
        ⟨true, some { email := some "c@d.e", user_data_loaded := { email := true } },
         []⟩).2 ∧
    MembershipEvent.fetchAccountInfo ∉ (readyUserInfo ⟨true, true⟩
        ⟨true, some { email := some "c@d.e", user_data_loaded := { email := true } },
         []⟩).2 ∧
    MembershipEvent.fetchAccessGroups ∉ (readyUserInfo ⟨true, true⟩
        ⟨true, some { email := some "c@d.e", user_data_loaded := { email := true } },
         []⟩).2 :=
  readyUserInfo_cached_callback_once _ _ _ rfl rfl rfl

/-- C7 counterexample: in cookie mode, tracking the value `"a=b"` under key
`"k"` and reading it back returns `"a"` — `split('=')[1]` truncates at the
second `'='` — which is neither the tracked value nor the string `"true"`. -/
theorem track_isTracked_not_roundtrip :
    isTracked ⟨TrackMethod.cookies, "track".toList⟩
        (track ⟨TrackMethod.cookies, "track".toList⟩ ⟨[], [], []⟩ "k".toList
          (some "a=b".toList)) "k".toList = some "a".toList ∧
    some "a".toList ≠ some "a=b".toList ∧
    some "a".toList ≠ some trueStr := by
  decide

/-- C7 amended: for each of the three backing methods, `track(key, value)`
followed by `isTracked(key)` returns a value equal to the one tracked — the
value `track` stores, JS `val || "true"`: the given value when truthy, the
string `"true"` when no value was given; for the cookie method only, this
requires that the prefix, key and value contain no `'='`, `';'` or `' '`
characters and that no existing cookie's name starts with the namespaced key
(existing cookies being browser-well-formed: no `';'` or `'='` in names, no
`';'` in values — values may contain `'='`). -/
theorem track_isTracked_roundtrip (m : TrackMethod) (pfx key : CStr)
    (val : Option CStr) (st : TrackerStore)
    (hcookie : m = TrackMethod.cookies →
      plainStr pfx = true ∧ plainStr key = true ∧
      (∀ v, val = some v → plainStr v = true) ∧
      (∀ e ∈ st.cookies, plainStr e.1 = true ∧ ';' ∉ e.2 ∧
        (trackKey ⟨m, pfx⟩ key).isPrefixOf e.1 = false)) :
    isTracked ⟨m, pfx⟩ (track ⟨m, pfx⟩ st key val) key = some (orTrue val) := by
  cases m with
  | sessionStorage => exact storeGet_storeSet _ _ _
  | localStorage => exact storeGet_storeSet _ _ _
  | cookies =>
    obtain ⟨hp, hk, hval, hjar⟩ := hcookie rfl
    have htk : plainStr (trackKey ⟨TrackMethod.cookies, pfx⟩ key) = true := by
      apply plainStr_append hp
      simp only [plainStr, List.all_cons, Bool.and_eq_true]
      exact ⟨by decide, hk⟩
    have hv' : plainStr (orTrue val) = true := by
      cases val with
      | none => decide
      | some v =>
        by_cases hvv : v = []
        · simp [orTrue, hvv]
          decide
        · simp only [orTrue, hvv, if_false]
          exact hval v rfl
    have hjar' : ∀ e ∈ st.cookies, plainStr e.1 = true ∧ ';' ∉ e.2 :=
      fun e he => ⟨(hjar e he).1, (hjar e he).2.1⟩
    have hfr : ∀ e ∈ st.cookies,
        (trackKey ⟨TrackMethod.cookies, pfx⟩ key).isPrefixOf e.1 = false :=
      fun e he => (hjar e he).2.2
    have hne : ∀ e ∈ st.cookies, e.1 ≠ trackKey ⟨TrackMethod.cookies, pfx⟩ key := by
      intro e he hcon
      exact absurd (hcon ▸ hfr e he) (by simp [isPrefixOf_self])
    have htrack : (track ⟨TrackMethod.cookies, pfx⟩ st key val).cookies =
        st.cookies ++ [(trackKey ⟨TrackMethod.cookies, pfx⟩ key, orTrue val)] := by
      show cookieAssign st.cookies
          (trackKey ⟨TrackMethod.cookies, pfx⟩ key ++ '=' :: orTrue val) = _
      exact cookieAssign_fresh htk hv' hne
    show ((splitSemiSpace (cookieString (track ⟨TrackMethod.cookies, pfx⟩ st key val).cookies)).find?
        (fun row => (trackKey ⟨TrackMethod.cookies, pfx⟩ key).isPrefixOf row)).bind
        (fun row => (splitOnChar '=' row).get? 1) = some (orTrue val)
    rw [htrack]
    exact isTracked_cookie_appended hjar' htk hv' hfr

/-- C7 amended witness: cookie-mode round trip at a concrete key and value,
past an unrelated cookie whose value contains `'='`. -/
theorem track_isTracked_roundtrip_witness :
    isTracked ⟨TrackMethod.cookies, "track".toList⟩
        (track ⟨TrackMethod.cookies, "track".toList⟩
          ⟨[], [], [("other".toList, "a=b".toList)]⟩ "k".toList
          (some "v1".toList)) "k".toList = some (orTrue (some "v1".toList)) :=
  track_isTracked_roundtrip TrackMethod.cookies "track".toList "k".toList
    (some "v1".toList) ⟨[], [], [("other".toList, "a=b".toList)]⟩
    (fun _ => ⟨by decide, by decide, fun v hv => by cases hv; decide, by decide⟩)

/-- C8: `reset()` under cookie mode expires exactly the cookies whose names
start with `prefix + "_"` and leaves every other cookie untouched, whereas
under sessionStorage and localStorage mode it clears the entire store,
including entries unrelated to the tracker's prefix. -/
theorem reset_scope (pfx : CStr) (st : TrackerStore) (hwf : wfJar st.cookies) :
    (reset ⟨TrackMethod.cookies, pfx⟩ st).cookies =
      st.cookies.filter (fun e => !((pfx ++ ['_']).isPrefixOf e.1)) ∧
    (reset ⟨TrackMethod.sessionStorage, pfx⟩ st).session = [] ∧
    (reset ⟨TrackMethod.localStorage, pfx⟩ st).localS = [] :=
  ⟨resetCookies_eq_filter pfx hwf, rfl, rfl⟩

/-- C8 witness: resetting a concrete store with one prefixed and one
unrelated cookie, and non-empty storage areas. -/
theorem reset_scope_witness :
    (reset ⟨TrackMethod.cookies, "track".toList⟩
        ⟨[("s1".toList, "sv".toList)], [("l1".toList, "lv".toList)],
         [("track_a".toList, "1".toList), ("other".toList, "2".toList)]⟩).cookies =
      [("track_a".toList, "1".toList), ("other".toList, "2".toList)].filter
        (fun e => !(("track".toList ++ ['_']).isPrefixOf e.1)) ∧
    (reset ⟨TrackMethod.sessionStorage, "track".toList⟩
        ⟨[("s1".toList, "sv".toList)], [("l1".toList, "lv".toList)],
         [("track_a".toList, "1".toList), ("other".toList, "2".toList)]⟩).session = [] ∧
    (reset ⟨TrackMethod.localStorage, "track".toList⟩
        ⟨[("s1".toList, "sv".toList)], [("l1".toList, "lv".toList)],
         [("track_a".toList, "1".toList), ("other".toList, "2".toList)]⟩).localS = [] :=
  reset_scope "track".toList _ (by unfold wfJar; decide)

/-- C9 counterexample: the selector of `processAllDataPosterUrls` is
`div[wfu-data-poster-url]`, so a non-div element carrying the source
attribute is left without the target attribute, contradicting the claim for
"every element". -/
theorem processAllDataPosterUrls_skips_non_div :
    processAllDataPosterUrls
        [⟨"span", [("wfu-data-poster-url", "https://posters.example/x.jpg")]⟩] =
      [⟨"span", [("wfu-data-poster-url", "https://posters.example/x.jpg")]⟩] ∧
    getAttribute ⟨"span", [("wfu-data-poster-url", "https://posters.example/x.jpg")]⟩
      "data-poster-url" = none := by
  decide

/-- C9 amended: after running the mirror, every `div` element carrying the
source attribute `wfu-data-poster-url` has its `data-poster-url` attribute
equal to the source value exactly, and every other element — a div without
the source attribute or a non-div element — is unchanged; the pass maps
`processElement` over the document. -/
theorem processAllDataPosterUrls_mirrors_divs (doc : List DomElement)
    (e : DomElement) :
    processAllDataPosterUrls doc = doc.map processElement ∧
    (∀ v, e.tag = "div" → getAttribute e "wfu-data-poster-url" = some v →
      getAttribute (processElement e) "data-poster-url" = some v) ∧
    ((e.tag ≠ "div" ∨ getAttribute e "wfu-data-poster-url" = none) →
      processElement e = e) := by
  refine ⟨rfl, ?_, ?_⟩
  · intro v htag hsrc
    simp [processElement, htag, hsrc, getAttribute_setAttribute]
  · intro h
    rcases h with h | h
    · simp [processElement, h]
    · by_cases htag : e.tag = "div" <;> simp [processElement, htag, h]

/-- C9 amended witness: a concrete div gets the mirrored attribute. -/
theorem processAllDataPosterUrls_mirrors_divs_witness :
    getAttribute
      (processElement ⟨"div", [("wfu-data-poster-url", "https://posters.example/x.jpg")]⟩)
      "data-poster-url" = some "https://posters.example/x.jpg" :=
  (processAllDataPosterUrls_mirrors_divs
    [⟨"div", [("wfu-data-poster-url", "https://posters.example/x.jpg")]⟩]
    ⟨"div", [("wfu-data-poster-url", "https://posters.example/x.jpg")]⟩).2.1
    "https://posters.example/x.jpg" rfl rfl

/-- C10: the login-form submit handler stores the encoded identity key under
the literal localStorage key `'StorageKeys.userKey'`, while `getUserKey`
reads and `clearUserInfo` removes `"wfuUserKey"`; so after a captured login
email, `getUserKey()` returns `undefined` and `clearUserInfo()` leaves the
captured entry in place. -/
theorem loginSubmitHandler_key_mismatch (st : MembershipState) (email : String)
    (h : lsGet st.localEntries "wfuUserKey" = none) :
    getUserKey (loginSubmitHandler st email) = none ∧
    lsGet (clearUserInfo (loginSubmitHandler st email)).localEntries
      "StorageKeys.userKey" = some (btoa email) := by
  constructor
  · have hget : lsGet (lsSet st.localEntries "StorageKeys.userKey" (btoa email))
        "wfuUserKey" = none := by
      rw [lsGet_lsSet_ne _ _ (by decide), h]
    simp [getUserKey, loginSubmitHandler, hget]
  · show lsGet (lsRemove (lsSet st.localEntries "StorageKeys.userKey" (btoa email))
        "wfuUserKey") "StorageKeys.userKey" = some (btoa email)
    rw [lsGet_lsRemove_ne _ (by decide), lsGet_lsSet_self]

/-- C10 witness: a concrete captured email. -/
theorem loginSubmitHandler_key_mismatch_witness :
    getUserKey (loginSubmitHandler ⟨true, none, []⟩ "alice@example.com") = none ∧
    lsGet (clearUserInfo (loginSubmitHandler ⟨true, none, []⟩
        "alice@example.com")).localEntries "StorageKeys.userKey" =
      some (btoa "alice@example.com") :=
  loginSubmitHandler_key_mismatch ⟨true, none, []⟩ "alice@example.com" rfl
